import Mathlib

/-!
Verification of the MemTrackifyPlus allocation tracker
(src/mem-trackify-plus/mem_trackify.h, with SmartGarbageCollector in
src/smart-garbage-collector/smart-gc.h a near-duplicate of the same logic).

The C++ class keeps an `std::unordered_map<void*, AllocInfo>` of live
allocations (`allocTrackData_`), a debug map (`debugTrackData_`), and an
atomic `isTrackerInitialized_` flag.  We embed the state shallowly:
addresses are naturals (0 plays the part of `nullptr`), the unordered map
is an association list with the exact `find` / `insert` / `erase` / `size`
semantics of `std::unordered_map` (in particular `insert` does NOT
overwrite an existing key), and the raw allocator `std::malloc` is an
oracle value passed into each call (0 meaning allocation failure).  The
thread-local reentrancy flag `isInReqTrackAlloc` is passed in as the value
it has on entry to the call.  Raw-memory effects (whether `std::malloc`
respectively `std::free` was invoked) are returned as booleans alongside
the new state.
-/

/-- Mirror of `MemTrackifyPlus::AllocInfo`: byte size and array/scalar form. -/
structure AllocInfo where
  size : Nat
  isArray : Bool
deriving DecidableEq, Repr

/-- Mirror of `MemTrackifyPlus::DebugInfo`: provenance file and line. -/
structure DebugInfo where
  file : String
  line : Int
deriving DecidableEq, Repr

/-- Lookup in the association-list model of `std::unordered_map`:
the value stored at key `k`, if any (`map.find(k)`). -/
def mapFind {α : Type} (m : List (Nat × α)) (k : Nat) : Option α :=
  (m.find? (fun e => e.1 == k)).map (fun e => e.2)

/-- Model of `std::unordered_map::insert`: if the key is already present the
map is unchanged (no overwrite); otherwise the binding is added. -/
def mapInsert {α : Type} (m : List (Nat × α)) (k : Nat) (v : α) : List (Nat × α) :=
  match mapFind m k with
  | some _ => m
  | none => m ++ [(k, v)]

/-- Model of `map.erase(it)` where `it = map.find(k)` succeeded: remove the
found (first) binding of key `k`. -/
def mapErase {α : Type} (m : List (Nat × α)) (k : Nat) : List (Nat × α) :=
  m.eraseP (fun e => e.1 == k)

/-- State of one `MemTrackifyPlus` tracker instance: the allocation ledger,
the debug ledger and the initialization flag. -/
structure MemTrackifyPlus where
  allocTrackData_ : List (Nat × AllocInfo)
  debugTrackData_ : List (Nat × DebugInfo)
  isTrackerInitialized_ : Bool
deriving DecidableEq, Repr

/-- The state right after the constructor ran: empty ledgers,
`isTrackerInitialized_ = true`. -/
def initState : MemTrackifyPlus :=
  { allocTrackData_ := [], debugTrackData_ := [], isTrackerInitialized_ := true }

/-- Result of a call to `reqTrackAlloc`: either a returned pointer (0 for
`nullptr`) or a thrown `std::bad_alloc`. -/
inductive AllocOutcome where
  | retPtr : Nat → AllocOutcome
  | badAlloc : AllocOutcome
deriving DecidableEq, Repr

/-- Shallow embedding of `MemTrackifyPlus::reqTrackAlloc(size, file, line,
isArray)`.  `isInReqTrackAlloc` is the value of the thread-local reentrancy
flag on entry; `rawResult` is the oracle for what `std::malloc(size)` would
return (0 = failure).  Returns the new state, the outcome, and whether the
raw allocator was invoked.  Mirrors the source line by line: size-0 guard,
reentrancy short-circuit, malloc, `bad_alloc` on failure, then recording
guarded by `ptr && ptr > 0x10000 && isTrackerInitialized_`. -/
def reqTrackAlloc (st : MemTrackifyPlus) (size : Nat) (file : String) (line : Int)
    (isArray : Bool) (isInReqTrackAlloc : Bool) (rawResult : Nat) :
    MemTrackifyPlus × AllocOutcome × Bool :=
  if size = 0 then (st, AllocOutcome.retPtr 0, false)
  else if isInReqTrackAlloc then (st, AllocOutcome.retPtr rawResult, true)
  else if rawResult = 0 then (st, AllocOutcome.badAlloc, true)
  else if 0x10000 < rawResult ∧ st.isTrackerInitialized_ = true then
    ({ st with
        allocTrackData_ := mapInsert st.allocTrackData_ rawResult ⟨size, isArray⟩,
        debugTrackData_ := mapInsert st.debugTrackData_ rawResult ⟨file, line⟩ },
      AllocOutcome.retPtr rawResult, true)
  else (st, AllocOutcome.retPtr rawResult, true)

/-- Shallow embedding of `MemTrackifyPlus::isMemoryLeak`: true iff the
allocation ledger is non-empty. -/
def isMemoryLeak (st : MemTrackifyPlus) : Bool :=
  !st.allocTrackData_.isEmpty

/-- Shallow embedding of `MemTrackifyPlus::getPtrCount`: number of live
tracked blocks. -/
def getPtrCount (st : MemTrackifyPlus) : Nat :=
  st.allocTrackData_.length

/-- Shallow embedding of `MemTrackifyPlus::reqTrackDealloc(ptr, isArray)`.
Returns the new state and whether `std::free` was invoked.  Mirrors the
source: null guard, `!isMemoryLeak()` early return, `find`, and erase+free
only when the iterator is valid and the stored form matches. -/
def reqTrackDealloc (st : MemTrackifyPlus) (ptr : Nat) (isArray : Bool) :
    MemTrackifyPlus × Bool :=
  if ptr = 0 then (st, false)
  else if isMemoryLeak st = false then (st, false)
  else
    match mapFind st.allocTrackData_ ptr with
    | some info =>
      if info.isArray = isArray then
        ({ st with allocTrackData_ := mapErase st.allocTrackData_ ptr }, true)
      else (st, false)
    | none => (st, false)

/-- Shallow embedding of `MemTrackifyPlus::printTrackingInfo` without the
trailing newline: one leak line for one ledger entry. -/
def printTrackingInfo (e : Nat × AllocInfo) : String :=
  "Leaked: " ++ toString e.2.size ++ " bytes " ++
    (if e.2.isArray then "of an array " else "") ++ "at " ++ toString e.1 ++ "."

/-- Shallow embedding of `MemTrackifyPlus::printTrackingReport` as the list
of lines written to the stream: a header plus one line per entry when the
ledger is non-empty, a single no-leaks line otherwise. -/
def printTrackingReport (st : MemTrackifyPlus) : List String :=
  if isMemoryLeak st then
    "--- Memory Leaks Detected ---" :: st.allocTrackData_.map printTrackingInfo
  else ["No memory leaks detected."]

/-- Shallow embedding of the teardown part of `MemTrackifyPlus`
destructor: if `isMemoryLeak()`, free every entry with a non-null address
and clear the ledger.  Returns the new state and the list of addresses
passed to `std::free`, in ledger order. -/
def destructorSweep (st : MemTrackifyPlus) : MemTrackifyPlus × List Nat :=
  if isMemoryLeak st then
    ({ st with allocTrackData_ := [] },
      (st.allocTrackData_.filter (fun e => e.1 != 0)).map (fun e => e.1))
  else (st, [])

/-- One top-level call against the tracker in a sequential execution:
an allocation request (with its `std::malloc` oracle value) or a
deallocation request.  Top-level sequential calls always see the
thread-local reentrancy flag clear, so `stepTrace` passes `false`. -/
inductive Op where
  | alloc (size : Nat) (file : String) (line : Int) (isArray : Bool) (rawResult : Nat)
  | dealloc (ptr : Nat) (isArray : Bool)
deriving DecidableEq, Repr

/-- Execute one sequential top-level call.  Returns the new state, whether
the call was a successful allocation (returned a non-null pointer), and
whether the call was a deallocation that matched a live entry (freed). -/
def stepTrace (st : MemTrackifyPlus) : Op → MemTrackifyPlus × Bool × Bool
  | Op.alloc size file line isArray raw =>
    match reqTrackAlloc st size file line isArray false raw with
    | (st1, AllocOutcome.retPtr p, _) => (st1, p != 0, false)
    | (st1, AllocOutcome.badAlloc, _) => (st1, false, false)
  | Op.dealloc ptr isArray =>
    match reqTrackDealloc st ptr isArray with
    | (st1, freed) => (st1, false, freed)

/-- Run a finite sequence of sequential calls.  Returns the final state,
the number of successful allocate calls, and the number of deallocate
calls that matched a live entry with matching form. -/
def runTrace (st : MemTrackifyPlus) : List Op → MemTrackifyPlus × Nat × Nat
  | [] => (st, 0, 0)
  | op :: rest =>
    match stepTrace st op with
    | (st1, succ, matched) =>
      match runTrace st1 rest with
      | (fin, s, m) => (fin, (if succ then 1 else 0) + s, (if matched then 1 else 0) + m)

/-- Keys of the ledger are pairwise distinct.  Holds in every reachable
state because `mapInsert` never duplicates a key. -/
def nodupKeys {α : Type} (m : List (Nat × α)) : Prop :=
  (m.map (fun e => e.1)).Nodup

/-- A sequential trace in which every successful allocate call (one that
returns a non-null pointer) is followed, later in the trace, by a
deallocate call with the same address and the same form. -/
def allocsMatched : List Op → Prop
  | [] => True
  | Op.alloc size _ _ isArray raw :: rest =>
    ((size ≠ 0 ∧ raw ≠ 0) → Op.dealloc raw isArray ∈ rest) ∧ allocsMatched rest
  | Op.dealloc _ _ :: rest => allocsMatched rest

/-- Well-behaved raw-allocator oracle along a trace: each allocation
request either fails (`raw = 0`) or yields an address above the low-address
filter bound that is not currently tracked (real `malloc` never hands out a
block that is still live). -/
def allocsWellBehaved : MemTrackifyPlus → List Op → Prop
  | _, [] => True
  | st, Op.alloc size file line isArray raw :: rest =>
    (raw = 0 ∨ (0x10000 < raw ∧ mapFind st.allocTrackData_ raw = none)) ∧
      allocsWellBehaved (stepTrace st (Op.alloc size file line isArray raw)).1 rest
  | st, Op.dealloc ptr isArray :: rest =>
    allocsWellBehaved (stepTrace st (Op.dealloc ptr isArray)).1 rest

/-- Invariant carried through the no-leaks round-trip argument: the tracker
is initialized, ledger keys are distinct and above the low-address bound,
and every live entry still has a matching deallocate pending in the
remaining trace. -/
def ledgerInv (st : MemTrackifyPlus) (ops : List Op) : Prop :=
  st.isTrackerInitialized_ = true ∧
  nodupKeys st.allocTrackData_ ∧
  (∀ e ∈ st.allocTrackData_, 0x10000 < e.1) ∧
  (∀ e ∈ st.allocTrackData_, Op.dealloc e.1 e.2.isArray ∈ ops)

theorem mapFind_nil {α : Type} (k : Nat) : mapFind ([] : List (Nat × α)) k = none := rfl

theorem mapFind_cons {α : Type} (a : Nat) (v : α) (m : List (Nat × α)) (k : Nat) :
    mapFind ((a, v) :: m) k = if a = k then some v else mapFind m k := by
  by_cases h : a = k
  · have hb : ((a, v).1 == k) = true := by simpa using h
    simp [mapFind, List.find?_cons, hb, h]
  · have hb : ((a, v).1 == k) = false := by simpa using h
    simp [mapFind, List.find?_cons, hb, h]

theorem mapFind_eq_none_iff {α : Type} (m : List (Nat × α)) (k : Nat) :
    mapFind m k = none ↔ k ∉ m.map (fun e => e.1) := by
  induction m with
  | nil => simp [mapFind]
  | cons e m ih =>
    rcases e with ⟨a, v⟩
    rw [mapFind_cons]
    by_cases h : a = k <;> simp [h, ih, Ne.symm]

theorem length_mapInsert_of_find_none {α : Type} (m : List (Nat × α)) (k : Nat) (v : α)
    (h : mapFind m k = none) : (mapInsert m k v).length = m.length + 1 := by
  simp [mapInsert, h]

theorem mapInsert_of_find_some {α : Type} (m : List (Nat × α)) (k : Nat) (v w : α)
    (h : mapFind m k = some w) : mapInsert m k v = m := by
  simp [mapInsert, h]

theorem length_mapErase_of_find_some {α : Type} (m : List (Nat × α)) (k : Nat) (v : α)
    (h : mapFind m k = some v) : (mapErase m k).length + 1 = m.length := by
  induction m with
  | nil => simp [mapFind] at h
  | cons e m ih =>
    rcases e with ⟨a, v'⟩
    rw [mapFind_cons] at h
    by_cases ha : a = k
    · simp [mapErase, List.eraseP_cons, ha]
    · simp only [if_neg ha] at h
      simpa [mapErase, List.eraseP_cons, ha] using ih h

theorem mem_of_mem_mapErase {α : Type} {m : List (Nat × α)} {k : Nat} {e : Nat × α}
    (h : e ∈ mapErase m k) : e ∈ m :=
  (List.eraseP_sublist m).mem h

theorem nodupKeys_mapInsert {α : Type} (m : List (Nat × α)) (k : Nat) (v : α)
    (h : nodupKeys m) : nodupKeys (mapInsert m k v) := by
  unfold mapInsert
  cases hf : mapFind m k with
  | some w => exact h
  | none =>
    have hk : k ∉ m.map (fun e => e.1) := (mapFind_eq_none_iff m k).1 hf
    unfold nodupKeys
    rw [List.map_append]
    refine List.Nodup.append h (by simp) ?_
    intro a ha hb
    simp only [List.map_cons, List.map_nil, List.mem_singleton] at hb
    exact hk (hb ▸ ha)

theorem nodupKeys_mapErase {α : Type} (m : List (Nat × α)) (k : Nat)
    (h : nodupKeys m) : nodupKeys (mapErase m k) := by
  unfold nodupKeys at h ⊢
  unfold mapErase
  exact List.Sublist.nodup (List.Sublist.map (fun e => e.1) (List.eraseP_sublist m)) h

theorem mapErase_key_ne {α : Type} {m : List (Nat × α)} {k : Nat} {e : Nat × α}
    (hnd : nodupKeys m) (h : e ∈ mapErase m k) (hk : k ∈ m.map (fun e => e.1)) :
    e.1 ≠ k := by
  induction m with
  | nil => simp [mapErase] at h
  | cons f m ih =>
    rcases f with ⟨a, v⟩
    have hnd' : nodupKeys m := by
      simpa [nodupKeys] using (List.nodup_cons.1 hnd).2
    have hanot : a ∉ m.map (fun e => e.1) := by
      simpa [nodupKeys] using (List.nodup_cons.1 hnd).1
    by_cases ha : a = k
    · subst ha
      have hb : ((a, v).1 == a) = true := by simp
      simp only [mapErase, List.eraseP_cons, hb, cond_true] at h
      intro hek
      exact hanot (hek ▸ (List.mem_map.2 ⟨e, h, rfl⟩))
    · have hb : ((a, v).1 == k) = false := by simpa using ha
      simp only [mapErase, List.eraseP_cons, hb, cond_false] at h
      rcases List.mem_cons.1 h with he | he
      · subst he; simpa using ha
      · have hk' : k ∈ m.map (fun e => e.1) := by
          rcases List.mem_map.1 hk with ⟨f, hf, hfk⟩
          rcases List.mem_cons.1 hf with rfl | hf
          · exact absurd hfk ha
          · exact List.mem_map.2 ⟨f, hf, hfk⟩
        exact ih hnd' he hk'

theorem mapFind_mapErase_self {α : Type} (m : List (Nat × α)) (k : Nat)
    (hnd : nodupKeys m) : mapFind (mapErase m k) k = none := by
  by_cases hk : k ∈ m.map (fun e => e.1)
  · exact (mapFind_eq_none_iff _ _).2 fun hmem => by
      rcases List.mem_map.1 hmem with ⟨e, he, hek⟩
      exact mapErase_key_ne hnd he hk hek
  · have : mapFind m k = none := (mapFind_eq_none_iff m k).2 hk
    exact (mapFind_eq_none_iff _ _).2 fun hmem => by
      rcases List.mem_map.1 hmem with ⟨e, he, hek⟩
      exact hk (hek ▸ List.mem_map.2 ⟨e, mem_of_mem_mapErase he, rfl⟩)

theorem mapFind_of_mem {α : Type} {m : List (Nat × α)} {a : Nat} {v : α}
    (hnd : nodupKeys m) (h : (a, v) ∈ m) : mapFind m a = some v := by
  induction m with
  | nil => simp at h
  | cons e m ih =>
    rcases e with ⟨b, w⟩
    have hnd' : nodupKeys m := by
      simpa [nodupKeys] using (List.nodup_cons.1 hnd).2
    have hbnot : b ∉ m.map (fun e => e.1) := by
      simpa [nodupKeys] using (List.nodup_cons.1 hnd).1
    rw [mapFind_cons]
    rcases List.mem_cons.1 h with he | he
    · injection he with h1 h2
      subst h1; subst h2
      simp
    · by_cases hb : b = a
      · subst hb
        exact absurd (List.mem_map.2 ⟨(b, v), he, rfl⟩) hbnot
      · rw [if_neg hb]; exact ih hnd' he

theorem mapFind_mem {α : Type} {m : List (Nat × α)} {k : Nat} {v : α}
    (h : mapFind m k = some v) : (k, v) ∈ m := by
  induction m with
  | nil => simp [mapFind] at h
  | cons e m ih =>
    rcases e with ⟨a, w⟩
    rw [mapFind_cons] at h
    by_cases ha : a = k
    · subst ha
      rw [if_pos rfl] at h
      exact List.mem_cons.2 (Or.inl (by simpa using h.symm))
    · rw [if_neg ha] at h
      exact List.mem_cons.2 (Or.inr (ih h))

theorem mem_mapInsert {α : Type} {m : List (Nat × α)} {k : Nat} {v : α} {e : Nat × α}
    (h : e ∈ mapInsert m k v) : e ∈ m ∨ e = (k, v) := by
  unfold mapInsert at h
  cases hf : mapFind m k with
  | some w => rw [hf] at h; exact Or.inl h
  | none =>
    rw [hf] at h
    rcases List.mem_append.1 h with h1 | h1
    · exact Or.inl h1
    · exact Or.inr (by simpa using h1)

theorem reqTrackAlloc_size_zero (st : MemTrackifyPlus) (f : String) (l : Int)
    (b re : Bool) (raw : Nat) :
    reqTrackAlloc st 0 f l b re raw = (st, AllocOutcome.retPtr 0, false) := rfl

theorem reqTrackAlloc_reentrant (st : MemTrackifyPlus) (size : Nat) (f : String) (l : Int)
    (b : Bool) (raw : Nat) (h0 : size ≠ 0) :
    reqTrackAlloc st size f l b true raw = (st, AllocOutcome.retPtr raw, true) := by
  simp [reqTrackAlloc, h0]

theorem reqTrackAlloc_raw_zero (st : MemTrackifyPlus) (size : Nat) (f : String) (l : Int)
    (b : Bool) (h0 : size ≠ 0) :
    reqTrackAlloc st size f l b false 0 = (st, AllocOutcome.badAlloc, true) := by
  simp [reqTrackAlloc, h0]

theorem reqTrackAlloc_record (st : MemTrackifyPlus) (size : Nat) (f : String) (l : Int)
    (b : Bool) (raw : Nat) (h0 : size ≠ 0) (hraw : raw ≠ 0) (hhi : 0x10000 < raw)
    (hinit : st.isTrackerInitialized_ = true) :
    reqTrackAlloc st size f l b false raw =
      ({ st with
          allocTrackData_ := mapInsert st.allocTrackData_ raw ⟨size, b⟩,
          debugTrackData_ := mapInsert st.debugTrackData_ raw ⟨f, l⟩ },
        AllocOutcome.retPtr raw, true) := by
  simp [reqTrackAlloc, h0, hraw, hhi, hinit]

theorem reqTrackAlloc_no_record (st : MemTrackifyPlus) (size : Nat) (f : String) (l : Int)
    (b : Bool) (raw : Nat) (h0 : size ≠ 0) (hraw : raw ≠ 0)
    (hc : ¬(0x10000 < raw ∧ st.isTrackerInitialized_ = true)) :
    reqTrackAlloc st size f l b false raw = (st, AllocOutcome.retPtr raw, true) := by
  unfold reqTrackAlloc
  rw [if_neg h0, if_neg Bool.false_ne_true, if_neg hraw, if_neg hc]

theorem ledger_eq_nil_of_not_leak {st : MemTrackifyPlus}
    (h : isMemoryLeak st = false) : st.allocTrackData_ = [] := by
  unfold isMemoryLeak at h
  cases hl : st.allocTrackData_ with
  | nil => rfl
  | cons e t => rw [hl] at h; simp at h

theorem isMemoryLeak_of_find_some {st : MemTrackifyPlus} {ptr : Nat} {v : AllocInfo}
    (h : mapFind st.allocTrackData_ ptr = some v) : isMemoryLeak st = true := by
  have hmem := mapFind_mem h
  cases hl : st.allocTrackData_ with
  | nil => rw [hl] at hmem; simp at hmem
  | cons e t => simp [isMemoryLeak, hl]

theorem reqTrackDealloc_find_none (st : MemTrackifyPlus) (ptr : Nat) (b : Bool)
    (h : mapFind st.allocTrackData_ ptr = none) :
    reqTrackDealloc st ptr b = (st, false) := by
  unfold reqTrackDealloc
  by_cases hp : ptr = 0
  · simp [hp]
  · by_cases hl : isMemoryLeak st = false
    · simp [hp, hl]
    · simp [hp, hl, h]

theorem reqTrackDealloc_mismatch (st : MemTrackifyPlus) (ptr : Nat) (b : Bool)
    (v : AllocInfo) (hfind : mapFind st.allocTrackData_ ptr = some v)
    (hmis : v.isArray ≠ b) : reqTrackDealloc st ptr b = (st, false) := by
  unfold reqTrackDealloc
  by_cases hp : ptr = 0
  · simp [hp]
  · simp [hp, isMemoryLeak_of_find_some hfind, hfind, hmis]

theorem reqTrackDealloc_matched (st : MemTrackifyPlus) (ptr : Nat) (b : Bool)
    (v : AllocInfo) (hptr : ptr ≠ 0) (hfind : mapFind st.allocTrackData_ ptr = some v)
    (hb : v.isArray = b) :
    reqTrackDealloc st ptr b =
      ({ st with allocTrackData_ := mapErase st.allocTrackData_ ptr }, true) := by
  unfold reqTrackDealloc
  simp [hptr, isMemoryLeak_of_find_some hfind, hfind, hb]

theorem reqTrackDealloc_cases (st : MemTrackifyPlus) (ptr : Nat) (b : Bool) :
    reqTrackDealloc st ptr b = (st, false) ∨
    ∃ v, ptr ≠ 0 ∧ mapFind st.allocTrackData_ ptr = some v ∧ v.isArray = b ∧
      reqTrackDealloc st ptr b =
        ({ st with allocTrackData_ := mapErase st.allocTrackData_ ptr }, true) := by
  by_cases hp : ptr = 0
  · exact Or.inl (by simp [reqTrackDealloc, hp])
  · cases hf : mapFind st.allocTrackData_ ptr with
    | none => exact Or.inl (reqTrackDealloc_find_none st ptr b hf)
    | some v =>
      by_cases hb : v.isArray = b
      · exact Or.inr ⟨v, hp, rfl, hb, reqTrackDealloc_matched st ptr b v hp hf hb⟩
      · exact Or.inl (reqTrackDealloc_mismatch st ptr b v hf hb)

theorem runTrace_cons (st : MemTrackifyPlus) (op : Op) (rest : List Op) :
    runTrace st (op :: rest) =
      ((runTrace (stepTrace st op).1 rest).1,
        (if (stepTrace st op).2.1 then 1 else 0) + (runTrace (stepTrace st op).1 rest).2.1,
        (if (stepTrace st op).2.2 then 1 else 0) + (runTrace (stepTrace st op).1 rest).2.2) := by
  rcases hstep : stepTrace st op with ⟨st1, succ, matched⟩
  rcases hrun : runTrace st1 rest with ⟨fin, s, m⟩
  simp [runTrace, hstep, hrun]

theorem stepTrace_alloc (st : MemTrackifyPlus) (size : Nat) (f : String) (l : Int)
    (b : Bool) (raw : Nat) :
    stepTrace st (Op.alloc size f l b raw) =
      ((reqTrackAlloc st size f l b false raw).1,
        (match (reqTrackAlloc st size f l b false raw).2.1 with
          | AllocOutcome.retPtr p => p != 0
          | AllocOutcome.badAlloc => false),
        false) := by
  rcases halloc : reqTrackAlloc st size f l b false raw with ⟨st1, out, rawCalled⟩
  cases out <;> simp [stepTrace, halloc]

theorem stepTrace_dealloc (st : MemTrackifyPlus) (ptr : Nat) (b : Bool) :
    stepTrace st (Op.dealloc ptr b) =
      ((reqTrackDealloc st ptr b).1, false, (reqTrackDealloc st ptr b).2) := by
  rcases hd : reqTrackDealloc st ptr b with ⟨st1, freed⟩
  simp [stepTrace, hd]

theorem stepTrace_init (st : MemTrackifyPlus) (op : Op) :
    (stepTrace st op).1.isTrackerInitialized_ = st.isTrackerInitialized_ := by
  cases op with
  | alloc size f l b raw =>
    rw [stepTrace_alloc]
    by_cases h0 : size = 0
    · subst h0; rw [reqTrackAlloc_size_zero]
    · by_cases hraw : raw = 0
      · subst hraw; rw [reqTrackAlloc_raw_zero st size f l b h0]
      · by_cases hc : 0x10000 < raw ∧ st.isTrackerInitialized_ = true
        · rw [reqTrackAlloc_record st size f l b raw h0 hraw hc.1 hc.2]
        · rw [reqTrackAlloc_no_record st size f l b raw h0 hraw hc]
  | dealloc ptr b =>
    rw [stepTrace_dealloc]
    rcases reqTrackDealloc_cases st ptr b with h | ⟨v, hp, hf, hb, h⟩ <;> rw [h]

theorem balance_of_wellBehaved (ops : List Op) : ∀ st : MemTrackifyPlus,
    st.isTrackerInitialized_ = true → allocsWellBehaved st ops →
    getPtrCount (runTrace st ops).1 + (runTrace st ops).2.2 =
      getPtrCount st + (runTrace st ops).2.1 := by
  induction ops with
  | nil => intro st hinit hwb; simp [runTrace]
  | cons op rest ih =>
    intro st hinit hwb
    rw [runTrace_cons]
    cases op with
    | alloc size f l b raw =>
      simp only [allocsWellBehaved] at hwb
      obtain ⟨horacle, hwb1⟩ := hwb
      by_cases h0 : size = 0
      · subst h0
        have hstep : stepTrace st (Op.alloc 0 f l b raw) = (st, false, false) := by
          rw [stepTrace_alloc, reqTrackAlloc_size_zero]; rfl
        have h1 : (stepTrace st (Op.alloc 0 f l b raw)).1 = st := by rw [hstep]
        have h2 : (stepTrace st (Op.alloc 0 f l b raw)).2.1 = false := by rw [hstep]
        have h3 : (stepTrace st (Op.alloc 0 f l b raw)).2.2 = false := by rw [hstep]
        rw [h1] at hwb1
        rw [h1, h2, h3]
        rcases hrun : runTrace st rest with ⟨fin, s, m⟩
        have hih := ih st hinit hwb1
        rw [hrun] at hih
        simpa using hih
      · rcases horacle with hraw | ⟨hhi, hfresh⟩
        · subst hraw
          have hstep : stepTrace st (Op.alloc size f l b 0) = (st, false, false) := by
            rw [stepTrace_alloc, reqTrackAlloc_raw_zero st size f l b h0]
          have h1 : (stepTrace st (Op.alloc size f l b 0)).1 = st := by rw [hstep]
          have h2 : (stepTrace st (Op.alloc size f l b 0)).2.1 = false := by rw [hstep]
          have h3 : (stepTrace st (Op.alloc size f l b 0)).2.2 = false := by rw [hstep]
          rw [h1] at hwb1
          rw [h1, h2, h3]
          rcases hrun : runTrace st rest with ⟨fin, s, m⟩
          have hih := ih st hinit hwb1
          rw [hrun] at hih
          simpa using hih
        · have hraw : raw ≠ 0 := by intro hz; subst hz; simp at hhi
          have hstep : stepTrace st (Op.alloc size f l b raw) =
              ({ st with
                  allocTrackData_ := mapInsert st.allocTrackData_ raw ⟨size, b⟩,
                  debugTrackData_ := mapInsert st.debugTrackData_ raw ⟨f, l⟩ },
                true, false) := by
            rw [stepTrace_alloc, reqTrackAlloc_record st size f l b raw h0 hraw hhi hinit]
            simp [hraw]
          have h1 : (stepTrace st (Op.alloc size f l b raw)).1 =
              { st with
                  allocTrackData_ := mapInsert st.allocTrackData_ raw ⟨size, b⟩,
                  debugTrackData_ := mapInsert st.debugTrackData_ raw ⟨f, l⟩ } := by
            rw [hstep]
          have h2 : (stepTrace st (Op.alloc size f l b raw)).2.1 = true := by rw [hstep]
          have h3 : (stepTrace st (Op.alloc size f l b raw)).2.2 = false := by rw [hstep]
          rw [h1] at hwb1
          rw [h1, h2, h3]
          rcases hrun : runTrace
            { st with
                allocTrackData_ := mapInsert st.allocTrackData_ raw ⟨size, b⟩,
                debugTrackData_ := mapInsert st.debugTrackData_ raw ⟨f, l⟩ } rest
            with ⟨fin, s, m⟩
          have hih := ih
            { st with
                allocTrackData_ := mapInsert st.allocTrackData_ raw ⟨size, b⟩,
                debugTrackData_ := mapInsert st.debugTrackData_ raw ⟨f, l⟩ } hinit hwb1
          rw [hrun] at hih
          have hcount : getPtrCount
              { st with
                  allocTrackData_ := mapInsert st.allocTrackData_ raw ⟨size, b⟩,
                  debugTrackData_ := mapInsert st.debugTrackData_ raw ⟨f, l⟩ } =
              getPtrCount st + 1 := by
            unfold getPtrCount
            exact length_mapInsert_of_find_none st.allocTrackData_ raw ⟨size, b⟩ hfresh
          simp at hih ⊢
          omega
    | dealloc p b =>
      simp only [allocsWellBehaved] at hwb
      rcases reqTrackDealloc_cases st p b with hd | ⟨v, hp, hf, hb, hd⟩
      · have hstep : stepTrace st (Op.dealloc p b) = (st, false, false) := by
          rw [stepTrace_dealloc, hd]
        have h1 : (stepTrace st (Op.dealloc p b)).1 = st := by rw [hstep]
        have h2 : (stepTrace st (Op.dealloc p b)).2.1 = false := by rw [hstep]
        have h3 : (stepTrace st (Op.dealloc p b)).2.2 = false := by rw [hstep]
        rw [h1] at hwb
        rw [h1, h2, h3]
        rcases hrun : runTrace st rest with ⟨fin, s, m⟩
        have hih := ih st hinit hwb
        rw [hrun] at hih
        simpa using hih
      · have hstep : stepTrace st (Op.dealloc p b) =
            ({ st with allocTrackData_ := mapErase st.allocTrackData_ p }, false, true) := by
          rw [stepTrace_dealloc, hd]
        have h1 : (stepTrace st (Op.dealloc p b)).1 =
            { st with allocTrackData_ := mapErase st.allocTrackData_ p } := by rw [hstep]
        have h2 : (stepTrace st (Op.dealloc p b)).2.1 = false := by rw [hstep]
        have h3 : (stepTrace st (Op.dealloc p b)).2.2 = true := by rw [hstep]
        rw [h1] at hwb
        rw [h1, h2, h3]
        rcases hrun : runTrace
          { st with allocTrackData_ := mapErase st.allocTrackData_ p } rest
          with ⟨fin, s, m⟩
        have hih := ih
          { st with allocTrackData_ := mapErase st.allocTrackData_ p } hinit hwb
        rw [hrun] at hih
        have hcount : getPtrCount
            { st with allocTrackData_ := mapErase st.allocTrackData_ p } + 1 =
            getPtrCount st := by
          unfold getPtrCount
          exact length_mapErase_of_find_some st.allocTrackData_ p v hf
        simp at hih ⊢
        omega

theorem dealloc_mem_of_mem_cons_alloc {a : Nat} {ab : Bool} {size : Nat} {f : String}
    {l : Int} {b : Bool} {raw : Nat} {rest : List Op}
    (h : Op.dealloc a ab ∈ Op.alloc size f l b raw :: rest) : Op.dealloc a ab ∈ rest := by
  rcases List.mem_cons.1 h with he | he
  · simp at he
  · exact he

theorem ledgerInv_step (st : MemTrackifyPlus) (op : Op) (rest : List Op)
    (hinv : ledgerInv st (op :: rest)) (hm : allocsMatched (op :: rest)) :
    ledgerInv (stepTrace st op).1 rest := by
  obtain ⟨hinit, hnd, hhi, hwit⟩ := hinv
  cases op with
  | alloc size f l b raw =>
    simp only [allocsMatched] at hm
    by_cases h0 : size = 0
    · subst h0
      have h1 : (stepTrace st (Op.alloc 0 f l b raw)).1 = st := by
        rw [stepTrace_alloc, reqTrackAlloc_size_zero]
      rw [h1]
      exact ⟨hinit, hnd, hhi, fun e he => dealloc_mem_of_mem_cons_alloc (hwit e he)⟩
    · by_cases hraw : raw = 0
      · subst hraw
        have h1 : (stepTrace st (Op.alloc size f l b 0)).1 = st := by
          rw [stepTrace_alloc, reqTrackAlloc_raw_zero st size f l b h0]
        rw [h1]
        exact ⟨hinit, hnd, hhi, fun e he => dealloc_mem_of_mem_cons_alloc (hwit e he)⟩
      · by_cases hhi' : 0x10000 < raw
        · have h1 : (stepTrace st (Op.alloc size f l b raw)).1 =
              { st with
                  allocTrackData_ := mapInsert st.allocTrackData_ raw ⟨size, b⟩,
                  debugTrackData_ := mapInsert st.debugTrackData_ raw ⟨f, l⟩ } := by
            rw [stepTrace_alloc, reqTrackAlloc_record st size f l b raw h0 hraw hhi' hinit]
          rw [h1]
          refine ⟨hinit, nodupKeys_mapInsert _ _ _ hnd, ?_, ?_⟩
          · intro e he
            rcases mem_mapInsert he with hold | hnew
            · exact hhi e hold
            · rw [hnew]; exact hhi'
          · intro e he
            rcases mem_mapInsert he with hold | hnew
            · exact dealloc_mem_of_mem_cons_alloc (hwit e hold)
            · rw [hnew]; exact hm.1 ⟨h0, hraw⟩
        · have h1 : (stepTrace st (Op.alloc size f l b raw)).1 = st := by
            rw [stepTrace_alloc,
              reqTrackAlloc_no_record st size f l b raw h0 hraw (fun hc => hhi' hc.1)]
          rw [h1]
          exact ⟨hinit, hnd, hhi, fun e he => dealloc_mem_of_mem_cons_alloc (hwit e he)⟩
  | dealloc p b =>
    simp only [allocsMatched] at hm
    rcases reqTrackDealloc_cases st p b with hd | ⟨v, hp, hf, hb, hd⟩
    · have h1 : (stepTrace st (Op.dealloc p b)).1 = st := by
        rw [stepTrace_dealloc, hd]
      rw [h1]
      refine ⟨hinit, hnd, hhi, ?_⟩
      intro e he
      rcases List.mem_cons.1 (hwit e he) with heq | hmem
      · exfalso
        have hep : e.1 = p ∧ e.2.isArray = b := by
          constructor <;> injection heq
        have hfind_e : mapFind st.allocTrackData_ e.1 = some e.2 :=
          mapFind_of_mem hnd (by rcases e with ⟨a, v'⟩; exact he)
        by_cases hp0 : p = 0
        · have := hhi e he
          rw [hep.1, hp0] at this
          exact absurd this (by decide)
        · cases hfv : mapFind st.allocTrackData_ p with
          | none => rw [hep.1, hfv] at hfind_e; exact Option.noConfusion hfind_e
          | some w =>
            have hew : e.2 = w := by
              rw [hep.1, hfv] at hfind_e
              exact Option.some.injEq .. ▸ hfind_e.symm ▸ rfl
            by_cases hwb : w.isArray = b
            · have := reqTrackDealloc_matched st p b w hp0 hfv hwb
              rw [this] at hd
              have : ({ st with allocTrackData_ := mapErase st.allocTrackData_ p },
                  true).2 = (st, false).2 := by rw [hd]
              simp at this
            · rw [hew] at hep
              exact hwb (hep.2)
      · exact hmem
    · have h1 : (stepTrace st (Op.dealloc p b)).1 =
          { st with allocTrackData_ := mapErase st.allocTrackData_ p } := by
        rw [stepTrace_dealloc, hd]
      rw [h1]
      have hpkeys : p ∈ st.allocTrackData_.map (fun e => e.1) :=
        List.mem_map.2 ⟨(p, v), mapFind_mem hf, rfl⟩
      refine ⟨hinit, nodupKeys_mapErase _ _ hnd, ?_, ?_⟩
      · intro e he
        exact hhi e (mem_of_mem_mapErase he)
      · intro e he
        have hne : e.1 ≠ p := mapErase_key_ne hnd he hpkeys
        rcases List.mem_cons.1 (hwit e (mem_of_mem_mapErase he)) with heq | hmem
        · exfalso
          apply hne
          injection heq
        · exact hmem

theorem ledger_empty_of_matched (ops : List Op) : ∀ st : MemTrackifyPlus,
    ledgerInv st ops → allocsMatched ops →
    (runTrace st ops).1.allocTrackData_ = [] := by
  induction ops with
  | nil =>
    intro st hinv _
    have : ∀ e, e ∉ st.allocTrackData_ := by
      intro e he
      exact absurd (hinv.2.2.2 e he) (List.not_mem_nil _)
    have hnil : st.allocTrackData_ = [] := List.eq_nil_iff_forall_not_mem.2 this
    simpa [runTrace] using hnil
  | cons op rest ih =>
    intro st hinv hm
    rw [runTrace_cons]
    have hinv1 := ledgerInv_step st op rest hinv hm
    have hm1 : allocsMatched rest := by
      cases op with
      | alloc size f l b raw => simp only [allocsMatched] at hm; exact hm.2
      | dealloc p b => simp only [allocsMatched] at hm; exact hm
    exact ih (stepTrace st op).1 hinv1 hm1

theorem stepTrace_ledger_cases (st : MemTrackifyPlus) (op : Op) :
    (stepTrace st op).1.allocTrackData_ = st.allocTrackData_ ∨
    (∃ size b raw, 0x10000 < raw ∧
      (stepTrace st op).1.allocTrackData_ =
        mapInsert st.allocTrackData_ raw ⟨size, b⟩) ∨
    (∃ p, (stepTrace st op).1.allocTrackData_ = mapErase st.allocTrackData_ p) := by
  cases op with
  | alloc size f l b raw =>
    by_cases h0 : size = 0
    · subst h0; left; rw [stepTrace_alloc, reqTrackAlloc_size_zero]
    · by_cases hraw : raw = 0
      · subst hraw; left; rw [stepTrace_alloc, reqTrackAlloc_raw_zero st size f l b h0]
      · by_cases hc : 0x10000 < raw ∧ st.isTrackerInitialized_ = true
        · right; left
          refine ⟨size, b, raw, hc.1, ?_⟩
          rw [stepTrace_alloc, reqTrackAlloc_record st size f l b raw h0 hraw hc.1 hc.2]
        · left; rw [stepTrace_alloc, reqTrackAlloc_no_record st size f l b raw h0 hraw hc]
  | dealloc p b =>
    rcases reqTrackDealloc_cases st p b with hd | ⟨v, hp, hf, hb, hd⟩
    · left; rw [stepTrace_dealloc, hd]
    · right; right; exact ⟨p, by rw [stepTrace_dealloc, hd]⟩

/-- C1 counterexample: a single sequential allocate call with a raw result
of 256 (non-null, but at or below the 0x10000 low-address filter) is a
successful allocate call, yet records no ledger entry, so the live count 0
differs from 1 successful allocate minus 0 matched deallocates. -/
theorem c1_balance_counterexample :
    ¬ (getPtrCount (runTrace initState [Op.alloc 1 "f" 1 false 256]).1 =
        (runTrace initState [Op.alloc 1 "f" 1 false 256]).2.1 -
        (runTrace initState [Op.alloc 1 "f" 1 false 256]).2.2) := by decide

/-- C1 (amended): for every finite sequence of sequential allocate and
deallocate calls on an initialized tracker in which every allocate call
either fails raw allocation or returns an address above 0x10000 that is not
currently tracked, the live count after the sequence equals the starting
live count plus the number of successful allocate calls minus the number of
deallocate calls that matched a live entry with matching form (stated
additively to avoid natural subtraction). -/
theorem c1_balance_wellBehaved (ops : List Op) (st : MemTrackifyPlus)
    (hinit : st.isTrackerInitialized_ = true) (hwb : allocsWellBehaved st ops) :
    getPtrCount (runTrace st ops).1 + (runTrace st ops).2.2 =
      getPtrCount st + (runTrace st ops).2.1 :=
  balance_of_wellBehaved ops st hinit hwb

/-- C1 witness: the balance theorem applied to the concrete trace
allocate(4) at 131072 followed by a matching deallocate. -/
theorem c1_balance_wellBehaved_witness :
    getPtrCount
        (runTrace initState
          [Op.alloc 4 "a.cpp" 3 false 131072, Op.dealloc 131072 false]).1 +
      (runTrace initState
        [Op.alloc 4 "a.cpp" 3 false 131072, Op.dealloc 131072 false]).2.2 =
    getPtrCount initState +
      (runTrace initState
        [Op.alloc 4 "a.cpp" 3 false 131072, Op.dealloc 131072 false]).2.1 :=
  c1_balance_wellBehaved [Op.alloc 4 "a.cpp" 3 false 131072, Op.dealloc 131072 false]
    initState rfl
    (by refine ⟨Or.inr ⟨by decide, rfl⟩, ?_⟩; simp [allocsWellBehaved])

/-- C2: deallocate on an address whose live entry has a different stored
form is a no-op: the state (ledger included) is unchanged and the raw block
is not freed. -/
theorem c2_form_mismatch_noop (st : MemTrackifyPlus) (ptr : Nat) (b : Bool)
    (v : AllocInfo) (hfind : mapFind st.allocTrackData_ ptr = some v)
    (hmis : v.isArray ≠ b) : reqTrackDealloc st ptr b = (st, false) :=
  reqTrackDealloc_mismatch st ptr b v hfind hmis

/-- C2 witness: a live array entry at 131072 deallocated as scalar stays in
the ledger and nothing is freed. -/
theorem c2_form_mismatch_noop_witness :
    reqTrackDealloc ⟨[(131072, ⟨4, true⟩)], [], true⟩ 131072 false =
      (⟨[(131072, ⟨4, true⟩)], [], true⟩, false) :=
  c2_form_mismatch_noop ⟨[(131072, ⟨4, true⟩)], [], true⟩ 131072 false ⟨4, true⟩
    (by decide) (by decide)

/-- C3: deallocate on a non-null address absent from the ledger is a no-op
that frees nothing; and for a live entry, the first matching deallocate
performs exactly one ledger removal (with the raw free) while a second
deallocate of the same address is a no-op. -/
theorem c3_untracked_and_double_free :
    (∀ (st : MemTrackifyPlus) (ptr : Nat) (b : Bool), ptr ≠ 0 →
      mapFind st.allocTrackData_ ptr = none → reqTrackDealloc st ptr b = (st, false)) ∧
    (∀ (st : MemTrackifyPlus) (ptr : Nat) (v : AllocInfo),
      nodupKeys st.allocTrackData_ → ptr ≠ 0 →
      mapFind st.allocTrackData_ ptr = some v →
      reqTrackDealloc st ptr v.isArray =
        ({ st with allocTrackData_ := mapErase st.allocTrackData_ ptr }, true) ∧
      getPtrCount { st with allocTrackData_ := mapErase st.allocTrackData_ ptr } + 1 =
        getPtrCount st ∧
      reqTrackDealloc
          { st with allocTrackData_ := mapErase st.allocTrackData_ ptr } ptr v.isArray =
        ({ st with allocTrackData_ := mapErase st.allocTrackData_ ptr }, false)) := by
  constructor
  · intro st ptr b hp hf
    exact reqTrackDealloc_find_none st ptr b hf
  · intro st ptr v hnd hp hf
    refine ⟨reqTrackDealloc_matched st ptr v.isArray v hp hf rfl, ?_, ?_⟩
    · exact length_mapErase_of_find_some st.allocTrackData_ ptr v hf
    · exact reqTrackDealloc_find_none _ ptr v.isArray
        (mapFind_mapErase_self st.allocTrackData_ ptr hnd)

/-- C3 witness: deallocating an untracked address 999 is a no-op, and the
first deallocate of the live entry at 131072 erases it and frees. -/
theorem c3_untracked_and_double_free_witness :
    (reqTrackDealloc ⟨[(131072, ⟨4, false⟩)], [], true⟩ 999 false =
      (⟨[(131072, ⟨4, false⟩)], [], true⟩, false)) ∧
    (reqTrackDealloc ⟨[(131072, ⟨4, false⟩)], [], true⟩ 131072 false =
      ({ MemTrackifyPlus.mk [(131072, ⟨4, false⟩)] [] true with
          allocTrackData_ := mapErase [(131072, ⟨4, false⟩)] 131072 }, true)) :=
  ⟨c3_untracked_and_double_free.1 ⟨[(131072, ⟨4, false⟩)], [], true⟩ 999 false
      (by decide) (by decide),
   (c3_untracked_and_double_free.2 ⟨[(131072, ⟨4, false⟩)], [], true⟩ 131072 ⟨4, false⟩
      (by unfold nodupKeys; decide) (by decide) (by decide)).1⟩

/-- C4 counterexample: recording at an address that already has a live
entry does NOT replace it.  With entry (131072, size 1, scalar) live, an
allocate of size 2 as array whose raw result is again 131072 leaves the
old entry in place: the ledger does not map the address to the newly
recorded size and form. -/
theorem c4_overwrite_counterexample :
    mapFind (reqTrackAlloc ⟨[(131072, ⟨1, false⟩)], [(131072, ⟨"old.cpp", 3⟩)], true⟩
        2 "new.cpp" 9 true false 131072).1.allocTrackData_ 131072 ≠
      some ⟨2, true⟩ := by decide

/-- C4 (amended): when an allocate call records at an address that already
has a live ledger entry, the `std::unordered_map::insert` is a no-op, so
the ledger is unchanged and keeps the previously recorded size and form
(first-write-wins, not last-write-wins); the call still returns the
address. -/
theorem c4_insert_keeps_existing (st : MemTrackifyPlus) (size : Nat) (f : String)
    (l : Int) (b : Bool) (raw : Nat) (v : AllocInfo) (h0 : 0 < size) (hraw : raw ≠ 0)
    (hfind : mapFind st.allocTrackData_ raw = some v) :
    (reqTrackAlloc st size f l b false raw).1.allocTrackData_ = st.allocTrackData_ ∧
    (reqTrackAlloc st size f l b false raw).2.1 = AllocOutcome.retPtr raw ∧
    mapFind (reqTrackAlloc st size f l b false raw).1.allocTrackData_ raw = some v := by
  have hins := mapInsert_of_find_some st.allocTrackData_ raw ⟨size, b⟩ v hfind
  by_cases hc : 0x10000 < raw ∧ st.isTrackerInitialized_ = true
  · have h1 := reqTrackAlloc_record st size f l b raw h0.ne' hraw hc.1 hc.2
    rw [h1]
    refine ⟨by simpa using hins, rfl, ?_⟩
    simpa [hins] using hfind
  · have h1 := reqTrackAlloc_no_record st size f l b raw h0.ne' hraw hc
    rw [h1]
    exact ⟨rfl, rfl, hfind⟩

/-- C4 witness: the amended statement applied to the concrete collision
state used in the counterexample. -/
theorem c4_insert_keeps_existing_witness :
    (reqTrackAlloc ⟨[(131072, ⟨1, false⟩)], [], true⟩
        2 "new.cpp" 9 true false 131072).1.allocTrackData_ =
      (MemTrackifyPlus.mk [(131072, ⟨1, false⟩)] [] true).allocTrackData_ :=
  (c4_insert_keeps_existing ⟨[(131072, ⟨1, false⟩)], [], true⟩ 2 "new.cpp" 9 true
    131072 ⟨1, false⟩ (by decide) (by decide) (by decide)).1

/-- C5: an allocate call with positive size, made with the reentrancy flag
clear, whose raw allocation fails, throws `std::bad_alloc` after exactly
one raw-allocator attempt and leaves the tracker state (ledger included)
unchanged. -/
theorem c5_alloc_failure_bad_alloc (st : MemTrackifyPlus) (size : Nat) (f : String)
    (l : Int) (b : Bool) (h : 0 < size) :
    reqTrackAlloc st size f l b false 0 = (st, AllocOutcome.badAlloc, true) :=
  reqTrackAlloc_raw_zero st size f l b h.ne'

/-- C5 witness: the failure theorem at size 4 on the freshly initialized
tracker. -/
theorem c5_alloc_failure_bad_alloc_witness :
    reqTrackAlloc initState 4 "a.cpp" 7 false false 0 =
      (initState, AllocOutcome.badAlloc, true) :=
  c5_alloc_failure_bad_alloc initState 4 "a.cpp" 7 false (by decide)

/-- C6: for every sequential trace from the freshly initialized tracker in
which each successful allocate call is later followed by a deallocate call
with the same address and form, the final ledger is empty, `isMemoryLeak`
is false, and the tracking report is the single no-leaks line with no
per-entry leak lines. -/
theorem c6_no_leaks_round_trip (ops : List Op) (hm : allocsMatched ops) :
    (runTrace initState ops).1.allocTrackData_ = [] ∧
    isMemoryLeak (runTrace initState ops).1 = false ∧
    printTrackingReport (runTrace initState ops).1 = ["No memory leaks detected."] := by
  have hled := ledger_empty_of_matched ops initState
    ⟨rfl, by simp [nodupKeys, initState], by simp [initState], by simp [initState]⟩ hm
  refine ⟨hled, ?_, ?_⟩
  · simp [isMemoryLeak, hled]
  · simp [printTrackingReport, isMemoryLeak, hled]

/-- C6 witness: the round-trip theorem on the trace allocate(4) at 131072
followed by its matching deallocate. -/
theorem c6_no_leaks_round_trip_witness :
    (runTrace initState
      [Op.alloc 4 "a.cpp" 3 false 131072, Op.dealloc 131072 false]).1.allocTrackData_ =
      [] :=
  (c6_no_leaks_round_trip [Op.alloc 4 "a.cpp" 3 false 131072, Op.dealloc 131072 false]
    (by simp [allocsMatched])).1

/-- C7: allocate with size 0 returns the null pointer, performs no raw
allocation and leaves the state (ledger included) unchanged, for every
state and every reentrancy-flag value; deallocate of the null address
leaves the state unchanged and frees nothing. -/
theorem c7_zero_size_and_null_noops :
    (∀ (st : MemTrackifyPlus) (f : String) (l : Int) (b re : Bool) (raw : Nat),
      reqTrackAlloc st 0 f l b re raw = (st, AllocOutcome.retPtr 0, false)) ∧
    (∀ (st : MemTrackifyPlus) (b : Bool), reqTrackDealloc st 0 b = (st, false)) :=
  ⟨fun _ _ _ _ _ _ => rfl, fun _ _ => rfl⟩

/-- C8: at teardown with a non-empty ledger, the sweep frees exactly the
non-null ledger addresses, each exactly once (the freed list has no
duplicates), and clears the ledger; with an empty ledger the sweep frees
nothing and changes nothing. -/
theorem c8_teardown_sweep (st : MemTrackifyPlus) (hnd : nodupKeys st.allocTrackData_) :
    (isMemoryLeak st = true →
      (∀ a : Nat, a ∈ (destructorSweep st).2 ↔
        (a ≠ 0 ∧ a ∈ st.allocTrackData_.map (fun e => e.1))) ∧
      (destructorSweep st).2.Nodup ∧
      (destructorSweep st).1.allocTrackData_ = []) ∧
    (isMemoryLeak st = false → destructorSweep st = (st, [])) := by
  constructor
  · intro hleak
    have hd : destructorSweep st =
        ({ st with allocTrackData_ := [] },
          (st.allocTrackData_.filter (fun e => e.1 != 0)).map (fun e => e.1)) := by
      simp [destructorSweep, hleak]
    rw [hd]
    refine ⟨?_, ?_, rfl⟩
    · intro a
      simp only [List.mem_map, List.mem_filter, bne_iff_ne, ne_eq]
      constructor
      · rintro ⟨e, ⟨he, hne⟩, rfl⟩
        exact ⟨hne, e, he, rfl⟩
      · rintro ⟨hne, e, he, rfl⟩
        exact ⟨e, ⟨he, hne⟩, rfl⟩
    · exact List.Sublist.nodup
        (List.Sublist.map (fun e => e.1) (List.filter_sublist st.allocTrackData_)) hnd
  · intro hempty
    simp [destructorSweep, hempty]

/-- C8 witness: the sweep theorem on a two-entry ledger with sizes 100 and
200, and both conclusions instantiated. -/
theorem c8_teardown_sweep_witness :
    (destructorSweep
      ⟨[(131072, ⟨100, false⟩), (131073, ⟨200, true⟩)], [], true⟩).1.allocTrackData_ =
      [] :=
  ((c8_teardown_sweep ⟨[(131072, ⟨100, false⟩), (131073, ⟨200, true⟩)], [], true⟩
      (by unfold nodupKeys; decide)).1 (by decide)).2.2

/-- C9: every ledger mutation keeps all stored addresses strictly above
0x10000; and an allocate call with positive size, non-reentrant, on an
initialized or uninitialized tracker, whose raw result is non-null but at
most 0x10000, returns that address without recording anything. -/
theorem c9_low_address_filter :
    (∀ (st : MemTrackifyPlus) (op : Op),
      (∀ e ∈ st.allocTrackData_, 0x10000 < e.1) →
      ∀ e ∈ (stepTrace st op).1.allocTrackData_, 0x10000 < e.1) ∧
    (∀ (st : MemTrackifyPlus) (size : Nat) (f : String) (l : Int) (b : Bool) (raw : Nat),
      0 < size → raw ≠ 0 → raw ≤ 0x10000 →
      reqTrackAlloc st size f l b false raw = (st, AllocOutcome.retPtr raw, true)) := by
  constructor
  · intro st op hhi e he
    rcases stepTrace_ledger_cases st op with hsame | ⟨size, b, raw, hraw, hins⟩ | ⟨p, hera⟩
    · exact hhi e (hsame ▸ he)
    · rw [hins] at he
      rcases mem_mapInsert he with hold | hnew
      · exact hhi e hold
      · rw [hnew]; exact hraw
    · rw [hera] at he
      exact hhi e (mem_of_mem_mapErase he)
  · intro st size f l b raw h0 hraw hle
    exact reqTrackAlloc_no_record st size f l b raw h0.ne' hraw
      (fun hc => absurd hc.1 (Nat.not_lt.2 hle))

/-- C9 witness: the preservation conjunct applied to a recording allocate
step at the concrete entry it inserts, and the filter conjunct applied to a
raw result of 256. -/
theorem c9_low_address_filter_witness :
    0x10000 < 131072 ∧
    reqTrackAlloc initState 4 "a.cpp" 3 false false 256 =
      (initState, AllocOutcome.retPtr 256, true) :=
  ⟨c9_low_address_filter.1 initState (Op.alloc 4 "a.cpp" 3 false 131072)
      (by simp [initState]) (131072, ⟨4, false⟩) (by decide),
   c9_low_address_filter.2 initState 4 "a.cpp" 3 false 256 (by decide) (by decide)
      (by decide)⟩

/-- C10: an allocate call with positive size entered while the per-thread
reentrancy flag is already set returns the raw-allocator result directly,
records nothing and changes no state; in particular a failed raw allocation
on this path returns the null pointer rather than throwing. -/
theorem c10_reentrant_bypass (st : MemTrackifyPlus) (size : Nat) (f : String) (l : Int)
    (b : Bool) (raw : Nat) (h : 0 < size) :
    reqTrackAlloc st size f l b true raw = (st, AllocOutcome.retPtr raw, true) :=
  reqTrackAlloc_reentrant st size f l b raw h.ne'

/-- C10 witness: the reentrant bypass with a failing raw allocator returns
null without throwing. -/
theorem c10_reentrant_bypass_witness :
    reqTrackAlloc initState 4 "a.cpp" 7 true true 0 =
      (initState, AllocOutcome.retPtr 0, true) :=
  c10_reentrant_bypass initState 4 "a.cpp" 7 true 0 (by decide)
